import Mathlib

/-
  Verification development for the Dosbox-Bridge mailbox protocol.

  Embedded source:
  - src/unnamed/part_000 (MBXSRV.C): the DOS guest mailbox server.
  - src/host-os.cpp (mbxhost): the host mailbox client.

  Modelling conventions:
  - A file content is a list of text lines (List Char per line); the
    status/output/return-code writers of the guest all write whole lines,
    and the guest reads the command file line by line (fgets), so the
    line-level view is the faithful granularity.  Where the host parses
    raw bytes (RC.TXT), lines are flattened with CR LF separators.
  - Filesystem mutations are modelled as explicit action traces
    (write / remove / rename / append) replayed on a record of slots,
    so that the staging-then-rename discipline is itself observable.
  - Renames and file creations succeed (no injected I/O faults); the
    interpreter invoked by the guest is an injected capability, as the
    spec prescribes.
  - Timestamps in log lines are dropped (DOS wall clock); log entries
    keep the message text only.
-/

abbrev Line := List Char

/-- C isspace over the character set used by the DOS trim and by the
istream whitespace skip: space, tab, LF, VT, FF, CR. -/
def isSpaceB (c : Char) : Bool :=
  c == ' ' || c == '\t' || c == '\n' || c == Char.ofNat 11 || c == Char.ofNat 12 || c == '\r'

/-- toupper, as used by stricmp in the guest. -/
def upChar (c : Char) : Char := c.toUpper

/-- trim() from MBXSRV.C: strip leading and trailing isspace characters. -/
def trimLine (l : Line) : Line :=
  ((l.dropWhile isSpaceB).reverse.dropWhile isSpaceB).reverse

/-- stricmp equality: compare after mapping both sides through toupper. -/
def ciEq (a b : Line) : Bool := a.map upChar == b.map upChar

def exitW : Line := "EXIT".toList
def quitW : Line := "QUIT".toList

/-- is_exit_cmd from MBXSRV.C: stricmp against EXIT and QUIT. -/
def is_exit_cmd (s : Line) : Bool := ciEq s exitW || ciEq s quitW

/-- Numeric value of a digit run, most significant first. -/
def digitsVal (ds : List Char) : Nat :=
  ds.foldl (fun acc c => acc * 10 + (c.toNat - 48)) 0

/-- Character normalisation step of parseReturnCode in host-os.cpp:
CR, LF and TAB are replaced by a space; everything else is kept. -/
def normChar (c : Char) : Char :=
  if c == '\r' || c == '\n' || c == '\t' then ' ' else c

/-- istream-style decimal read: maximal digit run at the head; fails when
there is no digit. -/
def readNat (s : List Char) : Option Nat :=
  let ds := s.takeWhile Char.isDigit
  if ds.isEmpty then none else some (digitsVal ds)

/-- The out-of-range check of num_get for a 32-bit int: since C++11 an
extracted value beyond the int range sets failbit, so the surrounding
read fails; in-range values pass through. -/
def intRange (v : Int) : Option Int :=
  if -2147483648 ≤ v ∧ v ≤ 2147483647 then some v else none

/-- istream operator>> on int after whitespace has been skipped: optional
sign followed by digits, failing when there is no digit or when the
denoted value lies outside the 32-bit int range (failbit). -/
def extractInt (s : List Char) : Option Int :=
  match s with
  | [] => none
  | c :: rest =>
    if c == '-' then (readNat rest).bind (fun n => intRange (-(n : Int)))
    else if c == '+' then (readNat rest).bind (fun n => intRange (n : Int))
    else (readNat (c :: rest)).bind (fun n => intRange (n : Int))

/-- parseReturnCode from host-os.cpp: normalise CR LF TAB to spaces, then
read one integer the way istringstream does (skip whitespace, optional
sign, digit run, failbit on out-of-int-range values); absent when that
read fails. -/
def parseReturnCode (s : List Char) : Option Int :=
  extractInt ((s.map normChar).dropWhile isSpaceB)

/-- Flatten a line-level file content to raw bytes with CR LF line ends,
as the guest writes text files and the host reads them back. -/
def rawOf (ls : List Line) : List Char :=
  ls.foldr (fun l acc => l ++ '\r' :: '\n' :: acc) []

/-- The files of the shared mailbox directory. -/
inductive FName where
  | cmdNew | cmdTxt | cmdRun | outNew | outTxt | rcNew | rcTxt
  | staNew | staTxt | jobBat | logTxt
deriving DecidableEq

/-- One filesystem mutation performed by host or guest code. -/
inductive FAct where
  | fwrite (n : FName) (c : List Line)
  | fremove (n : FName)
  | frename (src dst : FName)
  | fappend (n : FName) (l : Line)
deriving DecidableEq

/-- The shared directory: one optional content per slot file, plus the
append-only log. -/
structure FS where
  cmdNew : Option (List Line)
  cmdTxt : Option (List Line)
  cmdRun : Option (List Line)
  outNew : Option (List Line)
  outTxt : Option (List Line)
  rcNew : Option (List Line)
  rcTxt : Option (List Line)
  staNew : Option (List Line)
  staTxt : Option (List Line)
  jobBat : Option (List Line)
  logTxt : List Line

def FS.empty : FS :=
  ⟨none, none, none, none, none, none, none, none, none, none, []⟩

def getF (fs : FS) : FName → Option (List Line)
  | .cmdNew => fs.cmdNew
  | .cmdTxt => fs.cmdTxt
  | .cmdRun => fs.cmdRun
  | .outNew => fs.outNew
  | .outTxt => fs.outTxt
  | .rcNew => fs.rcNew
  | .rcTxt => fs.rcTxt
  | .staNew => fs.staNew
  | .staTxt => fs.staTxt
  | .jobBat => fs.jobBat
  | .logTxt => none

def setF (fs : FS) (n : FName) (v : Option (List Line)) : FS :=
  match n with
  | .cmdNew => { fs with cmdNew := v }
  | .cmdTxt => { fs with cmdTxt := v }
  | .cmdRun => { fs with cmdRun := v }
  | .outNew => { fs with outNew := v }
  | .outTxt => { fs with outTxt := v }
  | .rcNew => { fs with rcNew := v }
  | .rcTxt => { fs with rcTxt := v }
  | .staNew => { fs with staNew := v }
  | .staTxt => { fs with staTxt := v }
  | .jobBat => { fs with jobBat := v }
  | .logTxt => fs

/-- Replay one action.  A rename whose source is absent fails and leaves
the state unchanged (the C code logs and carries on in that case). -/
def applyAct (fs : FS) : FAct → FS
  | .fwrite n c => setF fs n (some c)
  | .fremove n => setF fs n none
  | .frename src dst =>
    match getF fs src with
    | none => fs
    | some c => setF (setF fs src none) dst (some c)
  | .fappend _ l => { fs with logTxt := fs.logTxt ++ [l] }

def applyActs (fs : FS) (acts : List FAct) : FS :=
  acts.foldl applyAct fs

/- ===== Guest server operations (MBXSRV.C), as action traces ===== -/

def readyW : Line := "READY".toList
def runningW : Line := "RUNNING".toList
def byeStateW : Line := "BYE".toList
def byeOutW : Line := "MBXSRV BYE".toList
def zeroW : Line := "0".toList
def oneW : Line := "1".toList

def logActs (msg : Line) : List FAct := [.fappend .logTxt msg]

/-- write_text_atomic: remove TEMP, write TEMP, remove FINAL, rename
TEMP to FINAL.  The written content is the single given text line. -/
def write_text_atomic_acts (temp final : FName) (text : Line) : List FAct :=
  [.fremove temp, .fwrite temp [text], .fremove final, .frename temp final]

/-- set_status: write_text_atomic over STA.NEW and STA.TXT. -/
def set_status_acts (state : Line) : List FAct :=
  write_text_atomic_acts .staNew .staTxt state

/-- claim_cmd: remove any stale CMD.RUN, then rename CMD.TXT to CMD.RUN.
The retry loop always succeeds on the first try here because renames are
not failed by the model; when CMD.TXT is absent the claim returns without
renaming. -/
def claim_cmd_acts (fs : FS) : List FAct :=
  [.fremove .cmdRun] ++
    (if fs.cmdTxt.isSome then [.frename .cmdTxt .cmdRun] else [])

/-- read_first_nonempty_line: each line is stripped of its line ends and
trimmed; the first one that is then nonempty is returned. -/
def firstNonEmpty (content : List Line) : Option Line :=
  (content.map trimLine).find? (fun l => !l.isEmpty)

/-- The raw (untrimmed) first non-blank line of a command, used to state
claims about the submitted text itself. -/
def firstNonBlankRaw (content : List Line) : Option Line :=
  content.find? (fun l => !(trimLine l).isEmpty)

def MAX_PAYLOAD : Nat := 32 * 1024

/-- The copy loop of build_job_bat_from_cmd: accumulate lines while the
running byte total stays within MAX_PAYLOAD; each fgets result carries
its newline, hence length + 1 bytes per line.  Returns the success flag,
the total copied, and the lines actually copied before any abort. -/
def buildScan : List Line → Nat → Bool × Nat × List Line
  | [], total => (true, total, [])
  | l :: rest, total =>
    let len := l.length + 1
    if MAX_PAYLOAD < total + len then (false, total, [])
    else
      let r := buildScan rest (total + len)
      (r.1, r.2.1, l :: r.2.2)

def buildOk (content : List Line) : Bool := (buildScan content 0).1

def buildTotal (content : List Line) : Nat := (buildScan content 0).2.1

def buildCopied (content : List Line) : List Line := (buildScan content 0).2.2

def jobHeader : List Line :=
  ["@echo off".toList, "rem MBXSRV job wrapper".toList]

def jobAbortTail : List Line :=
  ["rem ERROR: payload too large".toList, "echo 1 > RC.NEW".toList]

def jobTail : List Line :=
  [[], "rem Capture ERRORLEVEL of last command".toList,
   "echo %errorlevel% > RC.NEW".toList]

def jobBatContent (content : List Line) : List Line :=
  jobHeader ++ buildCopied content ++
    (if buildOk content then jobTail else jobAbortTail)

/-- build_job_bat_from_cmd: remove MBXJOB.BAT and RC.NEW, then write the
wrapper script (complete, or truncated with the abort tail). -/
def build_job_bat_acts (content : List Line) : List FAct :=
  [.fremove .jobBat, .fremove .rcNew, .fwrite .jobBat (jobBatContent content)]

/-- The injected interpreter capability: from the wrapper script content
to the system() return value and the OUT.NEW and RC.NEW contents the run
leaves behind (either may be absent). -/
def Interp := List Line → Int × Option (List Line) × Option (List Line)

/-- exec_job_to_out: remove OUT.NEW, then run COMSPEC /C MBXJOB.BAT with
stdout redirected to OUT.NEW; the run may create OUT.NEW and RC.NEW. -/
def exec_job_acts (fs : FS) (interp : Interp) : List FAct × Int :=
  let r := interp (fs.jobBat.getD [])
  ([.fremove .outNew] ++
     (match r.2.1 with
      | some o => [.fwrite .outNew o]
      | none => []) ++
     (match r.2.2 with
      | some rc => [.fwrite .rcNew rc]
      | none => []),
   r.1)

def errMissingOutW (sysRc : Int) : Line :=
  ("ERROR: OUT.NEW missing (system rc=" ++ toString sysRc ++ ")").toList

/-- publish_results: ensure OUT.NEW exists (else synthesise a diagnostic
into it), publish OUT.NEW over OUT.TXT; publish RC.NEW over RC.TXT when
it exists, else create RC.TXT directly with content 1. -/
def publish_results_acts (fs : FS) (sysRc : Int) : List FAct :=
  (if fs.outNew.isNone then [.fwrite .outNew [errMissingOutW sysRc]] else []) ++
  [.fremove .outTxt, .frename .outNew .outTxt] ++
  (if fs.rcNew.isSome then [.fremove .rcTxt, .frename .rcNew .rcTxt]
   else [.fwrite .rcTxt [oneW]])

def publish_results (fs : FS) (sysRc : Int) : FS :=
  applyActs fs (publish_results_acts fs sysRc)

def errnoLineW (errno : Int) : Line := ("errno=" ++ toString errno).toList

def errOutLines (what : Line) (errno : Int) : List Line :=
  ["ERROR: ".toList ++ what, errnoLineW errno]

/-- write_error_output: stage a two-line diagnostic in OUT.NEW and
publish it, then stage 1 in RC.NEW and publish it. -/
def write_error_output_acts (what : Line) (errno : Int) : List FAct :=
  [.fremove .outNew, .fwrite .outNew (errOutLines what errno),
   .fremove .outTxt, .frename .outNew .outTxt,
   .fremove .rcNew, .fwrite .rcNew [oneW],
   .fremove .rcTxt, .frename .rcNew .rcTxt]

def emptyCmdW : Line := "CMD file is empty".toList
def batFailW : Line :=
  "Failed to build MBXJOB.BAT (payload too large or file error)".toList
def logStartW : Line := "MBXSRV starting".toList
def logStaleW : Line := "Found stale CMD.RUN; will process it".toList
def logEscW : Line := "ESC pressed; exiting".toList
def logClaimW : Line := "Claimed CMD.TXT -> CMD.RUN".toList
def logExitW : Line := "Received EXIT/QUIT".toList
def logEmptyW : Line := "ERROR: CMD.RUN empty".toList

def logBuildFailW (payload : Nat) (errno : Int) : Line :=
  ("ERROR: build_job_bat failed (payload=" ++ toString payload ++
    ", errno=" ++ toString errno ++ ")").toList

def logExecW (payload : Nat) : Line :=
  ("Executing job (payload=" ++ toString payload ++ " bytes)").toList

def logSysW (rc : Int) : Line := ("system() rc=" ++ toString rc).toList

/-- The result of one tick of the guest loop: the new directory state,
whether the loop continues, and whether the interpreter was invoked. -/
structure TickOut where
  fs : FS
  cont : Bool
  execCalled : Bool

/-- The body of the main loop once a CMD.RUN with content c is in hand:
set status RUNNING, read the directive, then one of the four paths
(empty command, EXIT/QUIT, build failure, execute and publish). -/
def processClaimed (interp : Interp) (errno : Int) (c : List Line) (fs0 : FS) :
    TickOut :=
  let fs1 := applyActs fs0 (set_status_acts runningW)
  match firstNonEmpty c with
  | none =>
    ⟨applyActs fs1 (logActs logEmptyW ++ write_error_output_acts emptyCmdW errno ++
       [.fremove .cmdRun] ++ set_status_acts readyW), true, false⟩
  | some d =>
    if is_exit_cmd d then
      ⟨applyActs fs1 (logActs logExitW ++
         write_text_atomic_acts .outNew .outTxt byeOutW ++
         write_text_atomic_acts .rcNew .rcTxt zeroW ++
         [.fremove .cmdRun] ++ set_status_acts byeStateW), false, false⟩
    else
      let fs2 := applyActs fs1 (build_job_bat_acts c)
      if buildOk c then
        let fs3 := applyActs fs2
          (logActs (logExecW (buildTotal c)) ++ [.fremove .outTxt, .fremove .rcTxt])
        let er := exec_job_acts fs3 interp
        let fs4 := applyActs fs3 er.1
        ⟨applyActs fs4 (logActs (logSysW er.2) ++ publish_results_acts fs4 er.2 ++
           [.fremove .cmdRun] ++ set_status_acts readyW), true, true⟩
      else
        ⟨applyActs fs2 (logActs (logBuildFailW (buildTotal c) errno) ++
           write_error_output_acts batFailW errno ++
           [.fremove .cmdRun] ++ set_status_acts readyW), true, false⟩

/-- One tick of the guest main loop: the ESC abort check, the claim
attempt when no command is owned, then processing of an owned command. -/
def guestTick (interp : Interp) (errno : Int) (esc : Bool) (fs : FS) : TickOut :=
  if esc then
    ⟨applyActs fs (logActs logEscW ++ set_status_acts byeStateW), false, false⟩
  else
    let fs1 :=
      if fs.cmdRun.isNone && fs.cmdTxt.isSome then
        applyActs (applyActs fs (claim_cmd_acts fs)) (logActs logClaimW)
      else fs
    match fs1.cmdRun with
    | some c => processClaimed interp errno c fs1
    | none => ⟨fs1, true, false⟩

/-- The startup path of main before the loop: log the start, set status
READY, and log the stale-claim notice when CMD.RUN already exists. -/
def guestStartup (fs : FS) : FS :=
  let fs1 := applyActs fs (logActs logStartW ++ set_status_acts readyW)
  if fs1.cmdRun.isSome then applyActs fs1 (logActs logStaleW) else fs1

/-- The idle interval setup of main: argv[1], when present and parsed,
replaces the default 100 only when it lies within 10..2000. -/
def idle_ms_of (arg : Option Int) : Int :=
  match arg with
  | none => 100
  | some v => if 10 ≤ v ∧ v ≤ 2000 then v else 100

/- ===== Host client (host-os.cpp) ===== -/

/-- A Reply from sendCommandAndWait: output text plus optional code. -/
structure ReplyM where
  out : List Char
  rc : Option Int

inductive TimeoutE where
  | timeoutErr

/-- What the host observes from the shared directory while it polls.
outM and rcM are the OUT.TXT and RC.TXT modification-time probes at main
poll iteration i; outText and rcText are the contents read there; rcMg
and rcTextg are the probes and reads of the grace re-poll iterations.
outBefore and rcBefore are the snapshots taken before publishing. -/
structure HostEnv where
  outM : Nat → Option Nat
  rcM : Nat → Option Nat
  outText : Nat → List Char
  rcText : Nat → List Char
  rcMg : Nat → Option Nat
  rcTextg : Nat → List Char
  outBefore : Option Nat
  rcBefore : Option Nat

/-- The changed-mtime test of sendCommandAndWait: a present file counts
as updated when the snapshot was absent or the time differs. -/
def mtUpdated (before now : Option Nat) : Bool :=
  match now with
  | none => false
  | some t =>
    match before with
    | none => true
    | some t0 => t != t0

/-- The grace re-poll loop: while less than 200ms of 20ms sleeps have
elapsed, re-probe only the RC slot; on the first update, read and parse
it; give up with no code when the window closes. -/
def graceGo (env : HostEnv) : Nat → Nat → Option Int
  | 0, _ => none
  | fuel + 1, j =>
    if 200 ≤ 20 * j then none
    else if mtUpdated env.rcBefore (env.rcMg j) then parseReturnCode (env.rcTextg j)
    else graceGo env fuel (j + 1)

/-- Reply construction once the OUT slot updated at iteration i: read
OUT.TXT; parse RC.TXT when it also updated, else run the grace loop. -/
def mkReply (env : HostEnv) (i : Nat) : ReplyM :=
  if mtUpdated env.rcBefore (env.rcM i) then
    ⟨env.outText i, parseReturnCode (env.rcText i)⟩
  else
    ⟨env.outText i, graceGo env 10 0⟩

/-- The wait loop of sendCommandAndWait.  Iteration i runs at elapsed
time i * poll; the OUT-updated check comes first, then the timeout
check, then the sleep.  The result records the deciding iteration.
The fuel argument only bounds the recursion; the termination theorem
shows a uniform sufficient fuel. -/
def submitGo (env : HostEnv) (timeout poll : Nat) :
    Nat → Nat → Option (Nat × Except TimeoutE ReplyM)
  | 0, _ => none
  | fuel + 1, i =>
    if mtUpdated env.outBefore (env.outM i) then some (i, .ok (mkReply env i))
    else if timeout < i * poll then some (i, .error .timeoutErr)
    else submitGo env timeout poll fuel (i + 1)

/-- The publish step of sendCommandAndWait: remove the stale CMD.NEW,
write the command into CMD.NEW, then safeRename it over CMD.TXT (remove
the destination, rename). -/
def sendCommand_publish_acts (command : Line) : List FAct :=
  [.fremove .cmdNew, .fwrite .cmdNew [command],
   .fremove .cmdTxt, .frename .cmdNew .cmdTxt]

/-- One-shot mode of main: exit status is the reply code, default 0. -/
def oneShotExit (r : ReplyM) : Int := r.rc.getD 0

def exitWordW : Line := "exit".toList
def quitGuestW : Line := "quit-guest".toList

/-- The REPL loop of main: each input line is a local exit, the
quit-guest escape, an empty line, or a command submitted to the guest;
the reply of a submitted command is printed and dropped, and every way
out of the loop reaches the final return 0. -/
def replLoop (submit : Line → ReplyM) : List Line → Int
  | [] => 0
  | l :: rest =>
    if l == exitWordW then 0
    else if l == quitGuestW then 0
    else if l.isEmpty then replLoop submit rest
    else replLoop submit rest

/-- Modelled from the spec claim wording only: the last observed return
code of a REPL session, for comparison with the exit status the code
actually produces. -/
def lastObservedRc (submit : Line → ReplyM) : List Line → Option Int → Option Int
  | [], acc => acc
  | l :: rest, acc =>
    if l == exitWordW then acc
    else if l == quitGuestW then
      match (submit exitW).rc with
      | some v => some v
      | none => acc
    else if l.isEmpty then lastObservedRc submit rest acc
    else
      lastObservedRc submit rest
        (match (submit l).rc with
         | some v => some v
         | none => acc)

/-- Modelled from the spec claim wording only: clamping a configured
idle value to the range 10..2000. -/
def clampSpec (v : Int) : Int := max 10 (min v 2000)

/- ===== Published-name discipline (claim C4) ===== -/

/-- The published slot names of the protocol (CMD.TXT, OUT.TXT, RC.TXT,
STA.TXT).  CMD.RUN is the owned claim name, the .NEW files and
MBXJOB.BAT are staging or scratch, LOG.TXT is the append-only log. -/
def publishedB : FName → Bool
  | .cmdTxt => true
  | .outTxt => true
  | .rcTxt => true
  | .staTxt => true
  | _ => false

/-- A direct content write to a published filename. -/
def isPubWrite : FAct → Bool
  | .fwrite n _ => publishedB n
  | _ => false

/-- No action of the trace writes a published filename directly. -/
def noPubW (acts : List FAct) : Bool := acts.all (fun a => !isPubWrite a)

/- ===== Helper lemmas ===== -/

theorem dropWhile_append_all (p : Char → Bool) (w t : List Char)
    (h : ∀ c ∈ w, p c = true) :
    (w ++ t).dropWhile p = t.dropWhile p := by
  induction w with
  | nil => rfl
  | cons a w ih =>
    have ha : p a = true := h a (by simp)
    simp [List.dropWhile, ha]
    exact ih (fun c hc => h c (by simp [hc]))

theorem takeWhile_append_all (p : Char → Bool) (w t : List Char)
    (h : ∀ c ∈ w, p c = true) :
    (w ++ t).takeWhile p = w ++ t.takeWhile p := by
  induction w with
  | nil => rfl
  | cons a w ih =>
    have ha : p a = true := h a (by simp)
    simp [List.takeWhile, ha]
    exact ih (fun c hc => h c (by simp [hc]))

theorem isSpaceB_norm (c : Char) (h : isSpaceB c = true) :
    isSpaceB (normChar c) = true := by
  unfold normChar
  split
  · decide
  · exact h

theorem norm_of_digit (c : Char) (h : c.isDigit = true) : normChar c = c := by
  unfold normChar
  split
  · next hc =>
    simp only [Bool.or_eq_true, beq_iff_eq] at hc
    rcases hc with (hc | hc) | hc <;> subst hc <;> simp at h
  · rfl

theorem not_digit_norm (c : Char) (h : c.isDigit = false) :
    (normChar c).isDigit = false := by
  unfold normChar
  split
  · decide
  · exact h

theorem digit_not_space (c : Char) (h : c.isDigit = true) :
    isSpaceB c = false := by
  cases hs : isSpaceB c with
  | false => rfl
  | true =>
    simp only [isSpaceB, Bool.or_eq_true, beq_iff_eq] at hs
    rcases hs with ((((hc | hc) | hc) | hc) | hc) | hc <;> subst hc <;> simp at h

theorem space_up (c : Char) (h : isSpaceB c = true) : upChar c = c := by
  simp only [isSpaceB, Bool.or_eq_true, beq_iff_eq] at h
  rcases h with ((((hc | hc) | hc) | hc) | hc) | hc <;> subst hc <;> decide

theorem not_space_of_up (c u : Char) (h : upChar c = u)
    (hu : isSpaceB u = false) : isSpaceB c = false := by
  by_contra hs
  rw [Bool.not_eq_false] at hs
  rw [space_up c hs] at h
  subst h
  rw [hs] at hu
  exact Bool.noConfusion hu

theorem find?_map_loc (f : Line → Line) (p : Line → Bool) (l : List Line) :
    (l.map f).find? p = (l.find? (fun a => p (f a))).map f := by
  induction l with
  | nil => rfl
  | cons a l ih =>
    by_cases hp : p (f a)
    · simp [List.find?, hp]
    · simp only [Bool.not_eq_true] at hp
      simp [List.find?, hp, ih]

theorem readNat_digits (ds t : List Char) (hne : ds ≠ [])
    (hd : ∀ c ∈ ds, c.isDigit = true)
    (ht : t = [] ∨ ∃ c tt, t = c :: tt ∧ c.isDigit = false) :
    readNat (ds ++ t) = some (digitsVal ds) := by
  have htw : t.takeWhile Char.isDigit = [] := by
    rcases ht with h | ⟨c, tt, rfl, hc⟩
    · simp [h]
    · simp [List.takeWhile, hc]
  unfold readNat
  rw [takeWhile_append_all Char.isDigit ds t hd, htw]
  simp [hne]

theorem readNat_nodigit (t : List Char)
    (ht : t = [] ∨ ∃ c tt, t = c :: tt ∧ c.isDigit = false) :
    readNat t = none := by
  rcases ht with h | ⟨c, tt, rfl, hc⟩
  · simp [h, readNat]
  · simp [readNat, List.takeWhile, hc]

theorem trim_of_four (l : Line) (u1 u2 u3 u4 : Char)
    (h : l.map upChar = [u1, u2, u3, u4])
    (h1 : isSpaceB u1 = false) (h4 : isSpaceB u4 = false) :
    trimLine l = l := by
  rcases l with _ | ⟨a, _ | ⟨b, _ | ⟨c, _ | ⟨d, _ | ⟨e, t⟩⟩⟩⟩⟩ <;> simp at h
  obtain ⟨ha, hb, hc, hd⟩ := h
  have ha' : isSpaceB a = false := not_space_of_up a u1 ha h1
  have hd' : isSpaceB d = false := not_space_of_up d u4 hd h4
  simp [trimLine, List.dropWhile, ha', hd']

theorem trim_of_exit (l : Line) (h : is_exit_cmd l = true) : trimLine l = l := by
  simp only [is_exit_cmd, Bool.or_eq_true] at h
  rcases h with he | hq
  · have hm : l.map upChar = ['E', 'X', 'I', 'T'] := by
      have := beq_iff_eq.1 he
      simpa using this
    exact trim_of_four l 'E' 'X' 'I' 'T' hm (by decide) (by decide)
  · have hm : l.map upChar = ['Q', 'U', 'I', 'T'] := by
      have := beq_iff_eq.1 hq
      simpa using this
    exact trim_of_four l 'Q' 'U' 'I' 'T' hm (by decide) (by decide)

theorem map_id_of (f : Char → Char) (l : List Char) (h : ∀ c ∈ l, f c = c) :
    l.map f = l := by
  induction l with
  | nil => rfl
  | cons a l ih =>
    simp only [List.map_cons, h a (by simp)]
    rw [ih (fun c hc => h c (by simp [hc]))]

theorem dropWhile_subset (p : Char → Bool) (l : List Char) :
    ∀ c ∈ l.dropWhile p, c ∈ l := by
  induction l with
  | nil => intro c hc; exact hc
  | cons a l ih =>
    intro c hc
    by_cases hp : p a
    · simp only [List.dropWhile, hp] at hc
      exact List.mem_cons_of_mem a (ih c hc)
    · simp only [Bool.not_eq_true] at hp
      simp only [List.dropWhile, hp] at hc
      exact hc

theorem digit_not_dash (c : Char) (h : c.isDigit = true) : (c == '-') = false := by
  cases hq : c == '-' with
  | false => rfl
  | true =>
    have := beq_iff_eq.1 hq
    subst this
    simp at h

theorem digit_not_plus (c : Char) (h : c.isDigit = true) : (c == '+') = false := by
  cases hq : c == '+' with
  | false => rfl
  | true =>
    have := beq_iff_eq.1 hq
    subst this
    simp at h

theorem parseReturnCode_ws_digits_core (w ds r : List Char)
    (hw : ∀ c ∈ w, isSpaceB c = true) (hne : ds ≠ [])
    (hd : ∀ c ∈ ds, c.isDigit = true)
    (hr : ∀ c, r.head? = some c → c.isDigit = false) :
    parseReturnCode (w ++ ds ++ r) = intRange ((digitsVal ds : Nat) : Int) := by
  unfold parseReturnCode
  rw [List.map_append, List.map_append]
  have hwnorm : ∀ c ∈ w.map normChar, isSpaceB c = true := by
    intro c hc
    rcases List.mem_map.1 hc with ⟨a, ha, rfl⟩
    exact isSpaceB_norm a (hw a ha)
  rw [List.append_assoc]
  rw [dropWhile_append_all isSpaceB (w.map normChar) _ hwnorm]
  rw [map_id_of normChar ds (fun c hc => norm_of_digit c (hd c hc))]
  have hmr : r.map normChar = [] ∨
      ∃ c tt, r.map normChar = c :: tt ∧ c.isDigit = false := by
    cases r with
    | nil => exact Or.inl rfl
    | cons a t =>
      refine Or.inr ⟨normChar a, t.map normChar, by simp, ?_⟩
      exact not_digit_norm a (hr a (by simp))
  cases ds with
  | nil => exact absurd rfl hne
  | cons d ds =>
    have hdd : d.isDigit = true := hd d (by simp)
    have hds : List.dropWhile isSpaceB ((d :: ds) ++ r.map normChar) =
        (d :: ds) ++ r.map normChar := by
      simp [List.dropWhile, digit_not_space d hdd]
    rw [hds]
    have hrd := readNat_digits (d :: ds) (r.map normChar) (by simp) hd hmr
    simp only [List.cons_append] at hrd ⊢
    simp [extractInt, digit_not_dash d hdd, digit_not_plus d hdd, hrd]

theorem parseReturnCode_ws_digits (w ds r : List Char)
    (hw : ∀ c ∈ w, isSpaceB c = true) (hne : ds ≠ [])
    (hd : ∀ c ∈ ds, c.isDigit = true)
    (hr : ∀ c, r.head? = some c → c.isDigit = false)
    (hle : ((digitsVal ds : Nat) : Int) ≤ 2147483647) :
    parseReturnCode (w ++ ds ++ r) = some ((digitsVal ds : Nat) : Int) := by
  rw [parseReturnCode_ws_digits_core w ds r hw hne hd hr]
  have hnn : (0 : Int) ≤ ((digitsVal ds : Nat) : Int) := Int.natCast_nonneg _
  unfold intRange
  rw [if_pos ⟨by omega, hle⟩]

theorem parseReturnCode_overflow (w ds r : List Char)
    (hw : ∀ c ∈ w, isSpaceB c = true) (hne : ds ≠ [])
    (hd : ∀ c ∈ ds, c.isDigit = true)
    (hr : ∀ c, r.head? = some c → c.isDigit = false)
    (hgt : 2147483647 < ((digitsVal ds : Nat) : Int)) :
    parseReturnCode (w ++ ds ++ r) = none := by
  rw [parseReturnCode_ws_digits_core w ds r hw hne hd hr]
  unfold intRange
  rw [if_neg (by omega)]

theorem parseReturnCode_nodigit (s : List Char)
    (h : ∀ c ∈ s, c.isDigit = false) :
    parseReturnCode s = none := by
  unfold parseReturnCode
  have hall : ∀ c ∈ (s.map normChar).dropWhile isSpaceB, c.isDigit = false := by
    intro c hc
    have hc2 : c ∈ s.map normChar := dropWhile_subset isSpaceB _ c hc
    rcases List.mem_map.1 hc2 with ⟨a, ha, rfl⟩
    exact not_digit_norm a (h a ha)
  cases hcase : (s.map normChar).dropWhile isSpaceB with
  | nil => simp [extractInt]
  | cons c rest =>
    rw [hcase] at hall
    have hrest : rest = [] ∨ ∃ c2 tt, rest = c2 :: tt ∧ c2.isDigit = false := by
      cases rest with
      | nil => exact Or.inl rfl
      | cons c2 tt => exact Or.inr ⟨c2, tt, rfl, hall c2 (by simp)⟩
    have hcd : c.isDigit = false := hall c (by simp)
    have hcons : (c :: rest = [] ∨ ∃ c2 tt, c :: rest = c2 :: tt ∧ c2.isDigit = false) :=
      Or.inr ⟨c, rest, rfl, hcd⟩
    by_cases hdash : (c == '-') = true
    · simp [extractInt, hdash, readNat_nodigit rest hrest]
    · by_cases hplus : (c == '+') = true
      · simp only [Bool.not_eq_true] at hdash
        simp [extractInt, hdash, hplus, readNat_nodigit rest hrest]
      · simp only [Bool.not_eq_true] at hdash hplus
        simp [extractInt, hdash, hplus, readNat_nodigit _ hcons]

/-- C6: the host parse of the return-code slot tolerates surrounding and
embedded whitespace, CR and LF, and yields the value of the first
integer the stream read finds; when that read finds no integer - no
digit at all, or a digit run whose value is outside the 32-bit int
range, where operator>> sets failbit - the result is absent. -/
theorem c6_parse_return_code :
    (∀ w ds r : List Char, (∀ c ∈ w, isSpaceB c = true) → ds ≠ [] →
      (∀ c ∈ ds, c.isDigit = true) →
      (∀ c, r.head? = some c → c.isDigit = false) →
      ((digitsVal ds : Nat) : Int) ≤ 2147483647 →
      parseReturnCode (w ++ ds ++ r) = some ((digitsVal ds : Nat) : Int)) ∧
    (∀ w ds r : List Char, (∀ c ∈ w, isSpaceB c = true) → ds ≠ [] →
      (∀ c ∈ ds, c.isDigit = true) →
      (∀ c, r.head? = some c → c.isDigit = false) →
      2147483647 < ((digitsVal ds : Nat) : Int) →
      parseReturnCode (w ++ ds ++ r) = none) ∧
    (∀ s : List Char, (∀ c ∈ s, c.isDigit = false) → parseReturnCode s = none) :=
  ⟨parseReturnCode_ws_digits, parseReturnCode_overflow, parseReturnCode_nodigit⟩

/-- C6 witness: a concrete content with CR, LF, TAB and a second integer
parses to the first integer 42; a digit run beyond the int range parses
to none (failbit); an all-letter content parses to none. -/
theorem c6_parse_return_code_witness :
    parseReturnCode (" \r\n\t ".toList ++ "42".toList ++ " 7 stuff".toList) =
      some 42 ∧
    parseReturnCode ("".toList ++ "9999999999".toList ++ "".toList) = none ∧
    parseReturnCode "no code here".toList = none := by
  refine ⟨?_, ?_, ?_⟩
  · have h := c6_parse_return_code.1 " \r\n\t ".toList "42".toList " 7 stuff".toList
      (by decide) (by decide) (by decide)
      (fun c hc => by
        simp only [List.head?] at hc
        have h2 : ' ' = c := by injection hc
        rw [← h2]
        decide)
      (by decide)
    have h42 : digitsVal "42".toList = 42 := by decide
    rw [h42] at h
    exact h
  · exact c6_parse_return_code.2.1 "".toList "9999999999".toList "".toList
      (by decide) (by decide) (by decide)
      (fun c hc => by simp at hc) (by decide)
  · exact c6_parse_return_code.2.2 "no code here".toList (by decide)

theorem submitGo_total (env : HostEnv) (t p : Nat) (hp : 0 < p) :
    ∀ fuel i, i ≤ t / p + 1 → t / p + 2 ≤ i + fuel →
      (submitGo env t p fuel i).isSome = true := by
  intro fuel
  induction fuel with
  | zero => intro i h1 h2; omega
  | succ f ih =>
    intro i h1 h2
    unfold submitGo
    by_cases ho : mtUpdated env.outBefore (env.outM i) = true
    · simp [ho]
    · simp only [Bool.not_eq_true] at ho
      by_cases htm : t < i * p
      · simp [ho, htm]
      · have hdm : t = p * (t / p) + t % p := (Nat.div_add_mod t p).symm
        have hmod : t % p < p := Nat.mod_lt t hp
        have hip : i ≤ t / p := by
          by_contra hgt
          push_neg at hgt
          have hi : i = t / p + 1 := by omega
          have hlt : t < (t / p + 1) * p := by
            have : p * (t / p) + t % p < p * (t / p) + p := by omega
            calc t = p * (t / p) + t % p := hdm
              _ < p * (t / p) + p := by omega
              _ = (t / p + 1) * p := by ring
          rw [hi] at htm
          exact htm hlt
        simp only [ho, htm, if_false, Bool.false_eq_true]
        exact ih (i + 1) (by omega) (by omega)

theorem submitGo_error_late (env : HostEnv) (t p : Nat) :
    ∀ fuel j i e, submitGo env t p fuel j = some (i, Except.error e) →
      t < i * p := by
  intro fuel
  induction fuel with
  | zero => intro j i e h; simp [submitGo] at h
  | succ f ih =>
    intro j i e h
    unfold submitGo at h
    by_cases ho : mtUpdated env.outBefore (env.outM j) = true
    · simp [ho] at h
    · simp only [Bool.not_eq_true] at ho
      by_cases htm : t < j * p
      · simp only [ho, Bool.false_eq_true, if_false, htm, if_true] at h
        have hji := congrArg (fun o => Option.map Prod.fst o) h
        have hji2 : j = i := by simpa using hji
        rw [← hji2]
        exact htm
      · simp [ho, htm] at h
        exact ih (j + 1) i e h

/-- C3 counterexample trace: the OUT slot first reads as updated on poll
iteration 3, past the 100ms deadline with a 50ms poll. -/
def env0 : HostEnv :=
  { outM := fun i => if 3 ≤ i then some 1 else none
    rcM := fun _ => some 1
    outText := fun _ => "ok".toList
    rcText := fun _ => "0".toList
    rcMg := fun _ => none
    rcTextg := fun _ => []
    outBefore := none
    rcBefore := none }

/-- C3 counterexample: with timeout 100 and poll 50, the wait loop of
sendCommandAndWait returns a Reply at iteration 3, that is at elapsed
time 150 beyond the timeout, and does not fail with TimeoutError - so
submit does not always return a Reply within the timeout or fail, the
OUT-updated check running before the deadline check. -/
theorem c3_counterexample :
    submitGo env0 100 50 10 0 =
      some (3, Except.ok ⟨"ok".toList, some 0⟩) ∧ 100 < 3 * 50 := by
  exact ⟨rfl, by decide⟩

/-- C3 amended: for every observation trace, timeout and positive poll
interval, the wait loop decides within timeout / poll + 2 iterations,
returning a Reply or a TimeoutError (so it never blocks indefinitely),
and any TimeoutError is only raised at an iteration whose elapsed time
exceeds the timeout.  A Reply, however, may be returned after the
timeout has elapsed, as the counterexample shows. -/
theorem c3_submit_terminates (env : HostEnv) (timeout poll : Nat)
    (hp : 0 < poll) :
    (∃ r, submitGo env timeout poll (timeout / poll + 2) 0 = some r) ∧
    (∀ fuel i e, submitGo env timeout poll fuel 0 = some (i, Except.error e) →
      timeout < i * poll) := by
  constructor
  · have h := submitGo_total env timeout poll hp (timeout / poll + 2) 0
      (Nat.zero_le _) (by simp)
    exact Option.isSome_iff_exists.1 h
  · intro fuel i e h
    exact submitGo_error_late env timeout poll fuel 0 i e h

/-- An idle trace in which nothing ever updates. -/
def envIdle : HostEnv :=
  { outM := fun _ => none
    rcM := fun _ => none
    outText := fun _ => []
    rcText := fun _ => []
    rcMg := fun _ => none
    rcTextg := fun _ => []
    outBefore := none
    rcBefore := none }

/-- C3 witness: the amended theorem applied at a concrete trace with
timeout 100 and poll 50. -/
theorem c3_submit_terminates_witness :
    ∃ r, submitGo envIdle 100 50 (100 / 50 + 2) 0 = some r :=
  (c3_submit_terminates envIdle 100 50 (by decide)).1

theorem graceGo_none_aux (env : HostEnv)
    (h : ∀ j, j < 10 → mtUpdated env.rcBefore (env.rcMg j) = false) :
    ∀ fuel j, graceGo env fuel j = none := by
  intro fuel
  induction fuel with
  | zero => intro j; rfl
  | succ f ih =>
    intro j
    unfold graceGo
    by_cases hj : 200 ≤ 20 * j
    · simp [hj]
    · have hjlt : j < 10 := by omega
      simp [hj, h j hjlt, ih]

theorem graceGo_ext (env env2 : HostEnv)
    (h1 : env.rcBefore = env2.rcBefore) (h2 : env.rcMg = env2.rcMg)
    (h3 : env.rcTextg = env2.rcTextg) :
    ∀ fuel j, graceGo env fuel j = graceGo env2 fuel j := by
  intro fuel
  induction fuel with
  | zero => intro j; rfl
  | succ f ih =>
    intro j
    unfold graceGo
    rw [h1, h2, h3, ih]

/-- C7: when the OUT slot has updated at iteration i but the RC slot has
not, and the RC slot stays unchanged through the whole 200ms grace
window of 20ms re-polls, the grace loop yields no code, the Reply is the
output with an absent return code, the wait loop returns that Reply as a
normal success (not an error), and the grace loop consults only the
RC-slot observations of the trace. -/
theorem c7_grace_window (env : HostEnv) (i timeout poll : Nat)
    (hout : mtUpdated env.outBefore (env.outM i) = true)
    (hrc : mtUpdated env.rcBefore (env.rcM i) = false)
    (hg : ∀ j, j < 10 → mtUpdated env.rcBefore (env.rcMg j) = false) :
    graceGo env 10 0 = none ∧
    mkReply env i = ⟨env.outText i, none⟩ ∧
    (∀ fuel, submitGo env timeout poll (fuel + 1) i =
      some (i, Except.ok ⟨env.outText i, none⟩)) ∧
    (∀ env2 : HostEnv, env.rcBefore = env2.rcBefore → env.rcMg = env2.rcMg →
      env.rcTextg = env2.rcTextg → graceGo env 10 0 = graceGo env2 10 0) := by
  have hgr : graceGo env 10 0 = none := graceGo_none_aux env hg 10 0
  have hmk : mkReply env i = ⟨env.outText i, none⟩ := by
    unfold mkReply
    rw [hrc]
    simp [hgr]
  refine ⟨hgr, hmk, ?_, ?_⟩
  · intro fuel
    unfold submitGo
    simp [hout, hmk]
  · intro env2 h1 h2 h3
    exact graceGo_ext env env2 h1 h2 h3 10 0

/-- C7 witness trace: OUT updated, RC never updated anywhere. -/
def env4 : HostEnv :=
  { outM := fun _ => some 5
    rcM := fun _ => none
    outText := fun _ => "hello".toList
    rcText := fun _ => []
    rcMg := fun _ => none
    rcTextg := fun _ => []
    outBefore := none
    rcBefore := none }

/-- C7 witness: the theorem applied at the concrete trace env4. -/
theorem c7_grace_window_witness :
    mkReply env4 0 = ⟨env4.outText 0, none⟩ ∧ graceGo env4 10 0 = none :=
  ⟨(c7_grace_window env4 0 100 50 rfl rfl (fun _ _ => rfl)).2.1,
   (c7_grace_window env4 0 100 50 rfl rfl (fun _ _ => rfl)).1⟩

theorem guestTick_claimed (interp : Interp) (errno : Int) (fs : FS)
    (c : List Line) (hrun : fs.cmdRun = some c) :
    guestTick interp errno false fs = processClaimed interp errno c fs := by
  unfold guestTick
  simp [hrun]

theorem guestTick_exit (interp : Interp) (errno : Int) (fs : FS)
    (c : List Line) (l : Line)
    (hrun : fs.cmdRun = some c)
    (hfind : firstNonBlankRaw c = some l)
    (hex : is_exit_cmd l = true) :
    (guestTick interp errno false fs).fs.outTxt = some [byeOutW] ∧
    (guestTick interp errno false fs).fs.rcTxt = some [zeroW] ∧
    (guestTick interp errno false fs).fs.cmdRun = none ∧
    (guestTick interp errno false fs).fs.staTxt = some [byeStateW] ∧
    (guestTick interp errno false fs).cont = false ∧
    (guestTick interp errno false fs).execCalled = false := by
  have htr : trimLine l = l := trim_of_exit l hex
  have hfe : firstNonEmpty c = some l := by
    unfold firstNonEmpty
    rw [find?_map_loc trimLine (fun x => !x.isEmpty) c]
    unfold firstNonBlankRaw at hfind
    rw [hfind]
    simp [htr]
  rw [guestTick_claimed interp errno fs c hrun]
  unfold processClaimed
  rw [hfe]
  simp [hex, applyActs, applyAct, setF, getF, set_status_acts,
    write_text_atomic_acts, logActs]

/-- C1: a claimed command whose first non-blank line case-insensitively
equals EXIT or QUIT makes the guest publish output exactly MBXSRV BYE
and return code 0 (the published RC slot parses to 0), delete the
claimed command file, set the status slot to BYE, and leave the loop. -/
theorem c1_exit_quit_directive (interp : Interp) (errno : Int) (fs : FS)
    (c : List Line) (l : Line)
    (hrun : fs.cmdRun = some c)
    (hfind : firstNonBlankRaw c = some l)
    (hex : ciEq l exitW = true ∨ ciEq l quitW = true) :
    (guestTick interp errno false fs).fs.outTxt = some [byeOutW] ∧
    (guestTick interp errno false fs).fs.rcTxt = some [zeroW] ∧
    parseReturnCode (rawOf [zeroW]) = some 0 ∧
    (guestTick interp errno false fs).fs.cmdRun = none ∧
    (guestTick interp errno false fs).fs.staTxt = some [byeStateW] ∧
    (guestTick interp errno false fs).cont = false := by
  have hex2 : is_exit_cmd l = true := by
    unfold is_exit_cmd
    rcases hex with h | h <;> simp [h]
  obtain ⟨h1, h2, h3, h4, h5, h6⟩ := guestTick_exit interp errno fs c l hrun hfind hex2
  exact ⟨h1, h2, by decide, h3, h4, h5⟩

/-- The interpreter capability used by concrete witnesses: it produces
no OUT.NEW and no RC.NEW and reports status 0. -/
def interp0 : Interp := fun _ => (0, none, none)

/-- C1 witness state: a claimed command whose first line is blank and
whose second line is quit in lower case. -/
def fsC1 : FS := { FS.empty with cmdRun := some [[], "quit".toList] }

/-- C1 witness: the theorem applied at the concrete state fsC1. -/
theorem c1_exit_quit_directive_witness :
    (guestTick interp0 0 false fsC1).fs.outTxt = some [byeOutW] ∧
    (guestTick interp0 0 false fsC1).fs.rcTxt = some [zeroW] ∧
    (guestTick interp0 0 false fsC1).fs.staTxt = some [byeStateW] ∧
    (guestTick interp0 0 false fsC1).cont = false := by
  obtain ⟨h1, h2, h3, h4, h5, h6⟩ :=
    c1_exit_quit_directive interp0 0 fsC1 [[], "quit".toList] "quit".toList
      rfl (by decide) (Or.inr (by decide))
  exact ⟨h1, h2, h5, h6⟩

/-- C5: a claimed command file already present at guest startup is still
present with unchanged content after the startup path, the stale-claim
notice is in the log (not silently dropped), and the next tick of the
normal loop processes exactly that content. -/
theorem c5_stale_claim (interp : Interp) (errno : Int) (fs : FS)
    (c : List Line) (hrun : fs.cmdRun = some c) :
    (guestStartup fs).cmdRun = some c ∧
    logStaleW ∈ (guestStartup fs).logTxt ∧
    guestTick interp errno false (guestStartup fs) =
      processClaimed interp errno c (guestStartup fs) := by
  have hs : (guestStartup fs).cmdRun = some c ∧
      logStaleW ∈ (guestStartup fs).logTxt := by
    unfold guestStartup
    simp [applyActs, applyAct, setF, getF, logActs, set_status_acts,
      write_text_atomic_acts, hrun]
  exact ⟨hs.1, hs.2, guestTick_claimed interp errno (guestStartup fs) c hs.1⟩

/-- C5 witness state: CMD.RUN exists before startup with content dir. -/
def fsC5 : FS := { FS.empty with cmdRun := some ["dir".toList] }

/-- C5 witness: the theorem applied at the concrete state fsC5. -/
theorem c5_stale_claim_witness :
    (guestStartup fsC5).cmdRun = some ["dir".toList] ∧
    logStaleW ∈ (guestStartup fsC5).logTxt :=
  ⟨(c5_stale_claim interp0 0 fsC5 ["dir".toList] rfl).1,
   (c5_stale_claim interp0 0 fsC5 ["dir".toList] rfl).2.1⟩

/-- C10: after a job, publish_results always leaves a published
return-code file: when RC.NEW is absent the fallback writes RC.TXT with
content 1, and when RC.NEW exists its content is published to RC.TXT by
rename, so a completed job never leaves the return-code slot absent. -/
theorem c10_publish_rc (fs : FS) (sysRc : Int) :
    (publish_results fs sysRc).rcTxt.isSome = true ∧
    (fs.rcNew = none → (publish_results fs sysRc).rcTxt = some [oneW]) ∧
    (∀ cc, fs.rcNew = some cc → (publish_results fs sysRc).rcTxt = some cc) := by
  unfold publish_results publish_results_acts
  cases hrc : fs.rcNew with
  | none =>
    cases hout : fs.outNew with
    | none => simp [hrc, hout, applyActs, applyAct, setF, getF]
    | some oc => simp [hrc, hout, applyActs, applyAct, setF, getF]
  | some cc =>
    cases hout : fs.outNew with
    | none => simp [hrc, hout, applyActs, applyAct, setF, getF]
    | some oc => simp [hrc, hout, applyActs, applyAct, setF, getF]

/-- C10 witness: the theorem applied at the empty directory state, where
RC.NEW is absent, publishing return code 1. -/
theorem c10_publish_rc_witness :
    (publish_results FS.empty 7).rcTxt = some [oneW] :=
  (c10_publish_rc FS.empty 7).2.1 rfl

/-- C8 counterexample: the configured value 3000 is out of range; a
clamp to 10..2000 would give 2000, but the code ignores the value and
keeps the default 100. -/
theorem c8_counterexample :
    idle_ms_of (some 3000) = 100 ∧ clampSpec 3000 = 2000 ∧ (100 : Int) ≠ 2000 :=
  ⟨by decide, by decide, by decide⟩

/-- C8 amended: the idle interval defaults to 100ms; a configured value
is accepted only when it already lies within 10..2000 and is otherwise
ignored in favour of the default (it is not clamped to the nearer
bound); the effective interval always lies within 10..2000. -/
theorem c8_idle_interval :
    idle_ms_of none = 100 ∧
    (∀ v : Int, 10 ≤ v → v ≤ 2000 → idle_ms_of (some v) = v) ∧
    (∀ v : Int, v < 10 ∨ 2000 < v → idle_ms_of (some v) = 100) ∧
    (∀ arg, 10 ≤ idle_ms_of arg ∧ idle_ms_of arg ≤ 2000) := by
  refine ⟨rfl, ?_, ?_, ?_⟩
  · intro v h1 h2
    simp [idle_ms_of, h1, h2]
  · intro v h
    have hn : ¬(10 ≤ v ∧ v ≤ 2000) := by omega
    simp [idle_ms_of, hn]
  · intro arg
    cases arg with
    | none => exact ⟨by decide, by decide⟩
    | some v =>
      by_cases h : 10 ≤ v ∧ v ≤ 2000
      · simp only [idle_ms_of, if_pos h]
        exact ⟨h.1, h.2⟩
      · simp only [idle_ms_of, if_neg h]
        exact ⟨by decide, by decide⟩

/-- C8 witness: the amended theorem applied at the in-range value 500
and the out-of-range value 3000. -/
theorem c8_idle_interval_witness :
    idle_ms_of (some 500) = 500 ∧ idle_ms_of (some 3000) = 100 :=
  ⟨c8_idle_interval.2.1 500 (by decide) (by decide),
   c8_idle_interval.2.2.1 3000 (Or.inr (by decide))⟩

/-- C9 counterexample submit capability: every command gets output back
with return code 5. -/
def submit5 : Line → ReplyM := fun _ => ⟨[], some 5⟩

/-- C9 counterexample: a REPL session that runs one command observes
return code 5, yet the interactive loop exits with process status 0, so
the exit status does not mirror the last observed return code in
interactive mode. -/
theorem c9_counterexample :
    replLoop submit5 ["dir".toList] = 0 ∧
    lastObservedRc submit5 ["dir".toList] none = some 5 ∧
    (0 : Int) ≠ 5 :=
  ⟨rfl, rfl, by decide⟩

/-- C9 amended: in one-shot mode the process exit status is the
observed return code, defaulting to zero when none was observed; in
interactive (REPL) mode the process always exits with status 0,
whatever return codes were observed. -/
theorem c9_exit_status :
    (∀ r : ReplyM, oneShotExit r = r.rc.getD 0) ∧
    (∀ submit inputs, replLoop submit inputs = 0) := by
  refine ⟨fun r => rfl, ?_⟩
  intro submit inputs
  induction inputs with
  | nil => rfl
  | cons l rest ih =>
    by_cases h1 : (l == exitWordW) = true
    · simp [replLoop, h1]
    · by_cases h2 : (l == quitGuestW) = true
      · simp [replLoop, h1, h2]
      · by_cases h3 : l.isEmpty = true
        · simp [replLoop, h1, h2, h3, ih]
        · simp [replLoop, h1, h2, h3, ih]

/-- C4 counterexample: in a state where the job left no staged RC.NEW,
the publish_results trace performs a direct content write to the
published name RC.TXT, so not every mutation of a published slot goes
through staging-then-rename. -/
theorem c4_counterexample :
    (publish_results_acts FS.empty 0).any isPubWrite = true ∧
    FS.empty.rcNew = none :=
  ⟨by decide, rfl⟩

/-- C4 amended: every producer operation of host and guest writes file
content only to staging names (the .NEW files and MBXJOB.BAT), with one
exception forced by the counterexample: when RC.NEW is absent after a
job, publish_results writes the fallback content 1 directly to the
published RC.TXT, and that is the only direct published-name write any
operation performs. -/
theorem c4_staging_discipline :
    (∀ st, noPubW (set_status_acts st) = true) ∧
    (∀ l, noPubW (write_text_atomic_acts .outNew .outTxt l) = true) ∧
    (∀ l, noPubW (write_text_atomic_acts .rcNew .rcTxt l) = true) ∧
    (∀ w e, noPubW (write_error_output_acts w e) = true) ∧
    (∀ c, noPubW (build_job_bat_acts c) = true) ∧
    (∀ fs interp, noPubW (exec_job_acts fs interp).1 = true) ∧
    (∀ fs, noPubW (claim_cmd_acts fs) = true) ∧
    (∀ command, noPubW (sendCommand_publish_acts command) = true) ∧
    (∀ fs sysRc a, a ∈ publish_results_acts fs sysRc → isPubWrite a = true →
      fs.rcNew = none ∧ a = .fwrite .rcTxt [oneW]) := by
  refine ⟨fun st => rfl, fun l => rfl, fun l => rfl, fun w e => rfl,
    fun c => rfl, ?_, ?_, fun command => rfl, ?_⟩
  · intro fs interp
    cases h1 : (interp (fs.jobBat.getD [])).2.1 <;>
      cases h2 : (interp (fs.jobBat.getD [])).2.2 <;>
        simp [exec_job_acts, h1, h2, noPubW, isPubWrite, publishedB]
  · intro fs
    unfold claim_cmd_acts
    by_cases h : fs.cmdTxt.isSome = true <;> simp [h, noPubW, isPubWrite, publishedB]
  · intro fs sysRc a ha hw
    by_cases hrc : fs.rcNew.isSome = true
    · have hall : noPubW (publish_results_acts fs sysRc) = true := by
        unfold noPubW publish_results_acts
        by_cases ho : fs.outNew.isNone = true <;>
          simp [ho, hrc, isPubWrite, publishedB]
      have hfa := List.all_eq_true.1 hall a ha
      rw [hw] at hfa
      exact absurd hfa (by decide)
    · have hnone : fs.rcNew = none := by
        cases hv : fs.rcNew with
        | none => rfl
        | some cc => rw [hv] at hrc; simp at hrc
      refine ⟨hnone, ?_⟩
      by_cases ho : fs.outNew.isNone = true
      · simp [publish_results_acts, hnone, ho] at ha
        rcases ha with rfl | rfl | rfl | rfl <;>
          first
          | rfl
          | simp [isPubWrite, publishedB] at hw
      · simp [publish_results_acts, hnone, ho] at ha
        rcases ha with rfl | rfl | rfl <;>
          first
          | rfl
          | simp [isPubWrite, publishedB] at hw

/-- C4 witness: the amended theorem applied at the empty state and the
fallback write action: the hypotheses hold there and the conclusion
identifies the action as the RC.TXT fallback write. -/
theorem c4_staging_discipline_witness :
    FS.empty.rcNew = none ∧
    FAct.fwrite FName.rcTxt [oneW] = FAct.fwrite FName.rcTxt [oneW] :=
  c4_staging_discipline.2.2.2.2.2.2.2.2 FS.empty 0
    (FAct.fwrite FName.rcTxt [oneW]) (by decide) (by decide)
